import Mathlib

/-! Shallow embedding of the cockle command-line dispatcher (src/src/lib.rs).

The library resolves one input line against a statically built tree of
verbs and commands, producing an `Action`.  Rust strings are modelled as
lists of characters (`Str`), the `HashMap`s keyed by node name are
modelled as association lookups over the insertion list where a later
insert with the same key overwrites an earlier one (exactly the
behaviour of `HashMap::insert` / `collect`), and the borrowed references
carried inside `Action` are modelled by embedding the referenced node by
value. -/

namespace Cockle

/-- Rust strings, modelled as lists of characters. -/
abbrev Str := List Char

/-- Models Rust `char::is_whitespace` (the Unicode `White_Space`
property; the full, fixed list of code points). -/
def rustIsWhitespace (c : Char) : Bool :=
  let n := c.toNat
  n == 0x09 || n == 0x0A || n == 0x0B || n == 0x0C || n == 0x0D ||
  n == 0x20 || n == 0x85 || n == 0xA0 || n == 0x1680 ||
  (0x2000 ≤ n && n ≤ 0x200A) ||
  n == 0x2028 || n == 0x2029 || n == 0x202F || n == 0x205F || n == 0x3000

/-- Models `str::split_once(" ")`: split at the first occurrence of the
single space character, returning the text before and after it, or
`none` when the string holds no space. -/
def splitOnceSpace : Str → Option (Str × Str)
  | [] => none
  | c :: cs =>
    if c = ' ' then some ([], cs)
    else
      match splitOnceSpace cs with
      | some (a, b) => some (c :: a, b)
      | none => none

/-- The `(head, rest)` pair that both `Parser::parse` and `Verb::parse`
compute with `match input.split_once(" ")`: on `Some((a, b))` the pair is
`(a, b)`, on `None` it is `(input, "")`. -/
def splitHead (input : Str) : Str × Str :=
  match splitOnceSpace input with
  | some (a, b) => (a, b)
  | none => (input, [])

/-- Helper for `splitWhitespaceR`; `acc` holds the characters of the
token currently being read, in reverse order. -/
def splitWSGo : Str → Str → List Str
  | [], acc => if acc.isEmpty then [] else [acc.reverse]
  | c :: cs, acc =>
    if rustIsWhitespace c then
      (if acc.isEmpty then [] else [acc.reverse]) ++ splitWSGo cs []
    else
      splitWSGo cs (c :: acc)

/-- Models `str::split_whitespace`: the maximal runs of non-whitespace
characters, in order; no empty token is ever produced. -/
def splitWhitespaceR (s : Str) : List Str :=
  splitWSGo s []

/-- Models `str::trim_matches('-')`: removes every leading and every
trailing dash (note: both ends, not only the front). -/
def trimMatchesDash (s : Str) : Str :=
  ((s.dropWhile (fun c => c = '-')).reverse.dropWhile (fun c => c = '-')).reverse

/-- Models `str::starts_with` for a literal pattern. -/
def strStartsWith : Str → Str → Bool
  | _, [] => true
  | [], _ :: _ => false
  | c :: cs, p :: ps => c == p && strStartsWith cs ps

/-- `Parameter` (src/src/lib.rs): declaration of one flag. -/
structure Parameter where
  short_name : Char
  long_name : Str
deriving DecidableEq

/-- `ParameterValue` (src/src/lib.rs): one matched Parameter together
with the value tokens collected after it. -/
structure ParameterValue where
  parameter_type : Parameter
  values : List Str
deriving DecidableEq

/-- `ParameterValue::new`: binds a Parameter with an empty value list. -/
def ParameterValue.new (parameter_type : Parameter) : ParameterValue :=
  ⟨parameter_type, []⟩

/-- `Command` (src/src/lib.rs): a leaf node.  The two index maps
`parameters_by_short_name` / `parameters_by_long_name` are derived
from `parameters` at construction; they are modelled below as the
functions `Command.byShortName` / `Command.byLongName`. -/
structure Command where
  name : Str
  parameters : List Parameter
deriving DecidableEq

/-- `Manual` (src/src/lib.rs): passive help text. -/
structure Manual where
  short_description : Str
  detailed_help : List Str
deriving DecidableEq

/-- `Verb` (src/src/lib.rs): an interior tree node.  The `HashMap`s of
child verbs and commands are keyed by the children's own names
(`Verb::new` inserts each child under `child.name()`), so they are
modelled by the child lists themselves together with the last-wins
lookups `lookupVerb` / `lookupCommand`. -/
inductive Verb where
  | mk : Str → List Verb → List Command → Manual → Verb

/-- `Verb::name`. -/
def Verb.name : Verb → Str
  | .mk n _ _ _ => n

/-- The child-verb map backing list of a Verb. -/
def Verb.verbs : Verb → List Verb
  | .mk _ vs _ _ => vs

/-- The child-command map backing list of a Verb. -/
def Verb.commands : Verb → List Command
  | .mk _ _ cs _ => cs

/-- `Verb::get_help` (the `Informational` impl). -/
def Verb.get_help : Verb → Manual
  | .mk _ _ _ m => m

/-- `Action` (src/src/lib.rs).  The `&Verb` and `&Command` references
carried by `Incorrect` and `BadParameter` are embedded by value. -/
inductive Action where
  | Unknown : Str → Action
  | Incorrect : Str → Verb → Action
  | BadParameter : Str → Command → Action
  | Run : List ParameterValue → Action
  | Help : List ParameterValue → Action
  | Exit : Action

/-- `HashMap::get` on a verb map built by inserting the listed verbs in
order, each keyed by its own name: a later verb with the same name
overwrites an earlier one, so the lookup returns the last match. -/
def lookupVerb : List Verb → Str → Option Verb
  | [], _ => none
  | v :: vs, key =>
    match lookupVerb vs key with
    | some w => some w
    | none => if Verb.name v = key then some v else none

/-- `HashMap::get` on a command map built the same way. -/
def lookupCommand : List Command → Str → Option Command
  | [], _ => none
  | c :: cs, key =>
    match lookupCommand cs key with
    | some w => some w
    | none => if c.name = key then some c else none

/-- `Command::parameters_by_short_name` as a lookup function: the map is
built with `collect` over `enumerate`, so a later parameter with a
duplicate short name overwrites an earlier one. -/
def Command.byShortName (self : Command) (c : Char) : Option Nat :=
  self.parameters.enum.foldl
    (fun acc ip => if ip.2.short_name = c then some ip.1 else acc) none

/-- `Command::parameters_by_long_name` as a lookup function, built the
same way. -/
def Command.byLongName (self : Command) (s : Str) : Option Nat :=
  self.parameters.enum.foldl
    (fun acc ip => if ip.2.long_name = s then some ip.1 else acc) none

/-- Models Rust `str::len()`: the length of the string in UTF-8 bytes
(not in characters — a character can occupy up to four bytes). -/
def utf8Len : Str → Nat
  | [] => 0
  | c :: cs => c.utf8Size + utf8Len cs

/-- `parameter_values.last_mut()` followed by `values.push(token)`: if
the list is non-empty its last element receives the token, otherwise
nothing happens. -/
def pushToLast : List ParameterValue → Str → List ParameterValue
  | [], _ => []
  | [pv], token => [⟨pv.parameter_type, pv.values ++ [token]⟩]
  | pv :: pv2 :: pvs, token => pv :: pushToLast (pv2 :: pvs) token

/-- The token loop of `Command::parse` (src/src/lib.rs lines 169-199):
processes the remaining tokens given the `parameter_values` accumulated
so far; `return Action::BadParameter(..)` aborts the loop.  The
single-dash test `parameter_type_token.len() > 1` compares the length
in bytes, hence `utf8Len` and not the character count. -/
def Command.parseTokens (self : Command) : List Str → List ParameterValue → Action
  | [], parameter_values => Action.Run parameter_values
  | token :: tokens, parameter_values =>
    if strStartsWith token ['-', '-'] then
      let parameter_type_token := trimMatchesDash token
      match self.byLongName parameter_type_token with
      | some parameter_type_index =>
        match self.parameters.get? parameter_type_index with
        | some parameter_type =>
          self.parseTokens tokens
            (parameter_values ++ [ParameterValue.new parameter_type])
        | none => self.parseTokens tokens parameter_values
      | none => self.parseTokens tokens parameter_values
    else if strStartsWith token ['-'] then
      let parameter_type_token := trimMatchesDash token
      if utf8Len parameter_type_token > 1 then
        Action.BadParameter parameter_type_token self
      else
        match parameter_type_token.head? with
        | some first_char =>
          match self.byShortName first_char with
          | some parameter_type_index =>
            match self.parameters.get? parameter_type_index with
            | some parameter_type =>
              self.parseTokens tokens
                (parameter_values ++ [ParameterValue.new parameter_type])
            | none => self.parseTokens tokens parameter_values
          | none => self.parseTokens tokens parameter_values
        | none => self.parseTokens tokens parameter_values
    else
      self.parseTokens tokens (pushToLast parameter_values token)

/-- `Command::parse`: tokenize by whitespace and run the loop starting
from an empty value list. -/
def Command.parse (self : Command) (parameters : Str) : Action :=
  self.parseTokens (splitWhitespaceR parameters) []

/-- A successful `lookupVerb` returns a member of the list. -/
theorem lookupVerb_mem {vs : List Verb} {key : Str} {v : Verb}
    (h : lookupVerb vs key = some v) : v ∈ vs := by
  induction vs with
  | nil => simp [lookupVerb] at h
  | cons a as ih =>
    simp only [lookupVerb] at h
    cases hl : lookupVerb as key with
    | some w =>
      rw [hl] at h
      cases h
      exact List.mem_cons_of_mem _ (ih hl)
    | none =>
      rw [hl] at h
      by_cases hn : Verb.name a = key
      · simp [hn] at h
        cases h
        exact List.mem_cons_self _ _
      · simp [hn] at h

/-- `Verb::parse` (src/src/lib.rs lines 111-129): split off the first
path segment, try the child-verb map, then the child-command map, and
otherwise return `Incorrect` carrying the whole remaining input and this
Verb. -/
def Verb.parse (self : Verb) (input : Str) : Action :=
  match hv : lookupVerb self.verbs (splitHead input).1 with
  | some command_verb => command_verb.parse (splitHead input).2
  | none =>
    match lookupCommand self.commands (splitHead input).1 with
    | some command => command.parse (splitHead input).2
    | none => Action.Incorrect input self
termination_by sizeOf self
decreasing_by
  have hm : command_verb ∈ self.verbs := lookupVerb_mem hv
  have h1 : sizeOf command_verb < sizeOf self.verbs :=
    List.sizeOf_lt_of_mem hm
  cases self with
  | mk nm vs cs mn =>
    simp only [Verb.verbs] at h1
    simp only [Verb.mk.sizeOf_spec]
    omega

/-- `Parser` (src/src/lib.rs): the top-level verb map, again modelled as
the insertion list with last-wins lookup. -/
structure Parser where
  verbs : List Verb

/-- `Parser::parse` (src/src/lib.rs lines 51-69): split off the first
path segment, delegate to the matching top-level verb, otherwise return
`Unknown` with the first segment. -/
def Parser.parse (self : Parser) (input : Str) : Action :=
  match lookupVerb self.verbs (splitHead input).1 with
  | some verb => verb.parse (splitHead input).2
  | none => Action.Unknown (splitHead input).1

/-- Fuelled variant of `Verb::parse`, used to express termination of the
recursive tree walk: with zero fuel the walk is abandoned, otherwise it
performs exactly one step of `Verb::parse` and recurses with one unit of
fuel less. -/
def Verb.parseFuel : Nat → Verb → Str → Option Action
  | 0, _, _ => none
  | fuel + 1, self, input =>
    match lookupVerb self.verbs (splitHead input).1 with
    | some command_verb => Verb.parseFuel fuel command_verb (splitHead input).2
    | none =>
      match lookupCommand self.commands (splitHead input).1 with
      | some command => some (command.parse (splitHead input).2)
      | none => some (Action.Incorrect input self)

/-- Fuelled variant of `Parser::parse`, delegating to the fuelled verb
walk. -/
def Parser.parseFuel (fuel : Nat) (self : Parser) (input : Str) : Option Action :=
  match lookupVerb self.verbs (splitHead input).1 with
  | some verb => Verb.parseFuel fuel verb (splitHead input).2
  | none => some (Action.Unknown (splitHead input).1)

/-! ### Helper lemmas -/

theorem splitOnceSpace_eq_none {line : Str} (h : ' ' ∉ line) :
    splitOnceSpace line = none := by
  induction line with
  | nil => rfl
  | cons c cs ih =>
    simp only [List.mem_cons, not_or] at h
    simp only [splitOnceSpace]
    rw [if_neg (fun hc => h.1 hc.symm), ih h.2]

theorem splitOnceSpace_append {head : Str} (rest : Str) (h : ' ' ∉ head) :
    splitOnceSpace (head ++ ' ' :: rest) = some (head, rest) := by
  induction head with
  | nil => simp [splitOnceSpace]
  | cons c cs ih =>
    simp only [List.mem_cons, not_or] at h
    simp only [List.cons_append, splitOnceSpace, List.append_eq]
    rw [if_neg (fun hc => h.1 hc.symm), ih h.2]

theorem splitHead_append {head : Str} (rest : Str) (h : ' ' ∉ head) :
    splitHead (head ++ ' ' :: rest) = (head, rest) := by
  simp [splitHead, splitOnceSpace_append rest h]

theorem splitHead_no_space {line : Str} (h : ' ' ∉ line) :
    splitHead line = (line, []) := by
  simp [splitHead, splitOnceSpace_eq_none h]

/-- A token that does not start with one dash does not start with two. -/
theorem strStartsWith_dashdash_false {tok : Str}
    (h : strStartsWith tok ['-'] = false) :
    strStartsWith tok ['-', '-'] = false := by
  cases tok with
  | nil => rfl
  | cons c cs =>
    simp only [strStartsWith] at h ⊢
    cases hc : (c == '-') with
    | false => simp [hc]
    | true =>
      rw [hc] at h
      simp only [Bool.true_and] at h
      cases cs <;> simp [strStartsWith] at h

/-- Trimming a string made of dashes only yields the empty string. -/
theorem trimMatchesDash_all_dash {tok : Str} (h : ∀ c ∈ tok, c = '-') :
    trimMatchesDash tok = [] := by
  have hd : tok.dropWhile (fun c => c = '-') = [] := by
    induction tok with
    | nil => rfl
    | cons c cs ih =>
      rw [List.dropWhile_cons]
      have hc : c = '-' := h c (List.mem_cons_self _ _)
      simp only [hc, decide_true_eq_true, if_true]
      exact ih (fun d hm => h d (List.mem_cons_of_mem _ hm))
  simp [trimMatchesDash, hd]

/-- Every character occupies at least one byte, so the character count
bounds the byte count from below. -/
theorem length_le_utf8Len (s : Str) : s.length ≤ utf8Len s := by
  induction s with
  | nil => simp [utf8Len]
  | cons c cs ih =>
    simp only [List.length_cons, utf8Len]
    have h1 : 0 < c.utf8Size := Char.utf8Size_pos c
    omega

/-- `pushToLast` updates exactly the last element of a non-empty list. -/
theorem pushToLast_append (acc : List ParameterValue) (pv : ParameterValue)
    (token : Str) :
    pushToLast (acc ++ [pv]) token =
      acc ++ [⟨pv.parameter_type, pv.values ++ [token]⟩] := by
  induction acc with
  | nil => rfl
  | cons a as ih =>
    cases as with
    | nil => rfl
    | cons b bs =>
      simp only [List.cons_append] at ih ⊢
      rw [pushToLast, ih]

/-- Unfolding `Verb::parse` when the first segment names a child verb. -/
theorem Verb.parse_eq_verb {self cv : Verb} {input : Str}
    (hv : lookupVerb self.verbs (splitHead input).1 = some cv) :
    Verb.parse self input = Verb.parse cv (splitHead input).2 := by
  rw [Verb.parse.eq_def]
  split <;> simp_all

/-- Unfolding `Verb::parse` when the first segment names a child command
and no child verb. -/
theorem Verb.parse_eq_command {self : Verb} {cmd : Command} {input : Str}
    (hv : lookupVerb self.verbs (splitHead input).1 = none)
    (hc : lookupCommand self.commands (splitHead input).1 = some cmd) :
    Verb.parse self input = Command.parse cmd (splitHead input).2 := by
  rw [Verb.parse.eq_def]
  split <;> simp_all

/-- Unfolding `Verb::parse` when the first segment matches nothing. -/
theorem Verb.parse_eq_incorrect {self : Verb} {input : Str}
    (hv : lookupVerb self.verbs (splitHead input).1 = none)
    (hc : lookupCommand self.commands (splitHead input).1 = none) :
    Verb.parse self input = Action.Incorrect input self := by
  rw [Verb.parse.eq_def]
  split <;> simp_all

/-- A child verb found by lookup is strictly smaller than its parent. -/
theorem sizeOf_child_lt {v cv : Verb} {key : Str}
    (hv : lookupVerb v.verbs key = some cv) : sizeOf cv < sizeOf v := by
  have hm : cv ∈ v.verbs := lookupVerb_mem hv
  have h2 : sizeOf cv < sizeOf v.verbs := List.sizeOf_lt_of_mem hm
  cases v with
  | mk nm vs cs mn =>
    simp only [Verb.verbs] at h2
    simp only [Verb.mk.sizeOf_spec]
    omega

theorem Verb.one_le_sizeOf (v : Verb) : 1 ≤ sizeOf v := by
  cases v with
  | mk nm vs cs mn =>
    simp only [Verb.mk.sizeOf_spec]
    omega

/-- Any fuel at least `sizeOf v` is enough for the fuelled verb walk to
finish and agree with `Verb::parse`. -/
theorem Verb.parseFuel_adequate :
    ∀ (fuel : Nat) (v : Verb) (input : Str), sizeOf v ≤ fuel →
      Verb.parseFuel fuel v input = some (Verb.parse v input) := by
  intro fuel
  induction fuel with
  | zero =>
    intro v input h
    have := Verb.one_le_sizeOf v
    omega
  | succ fuel ih =>
    intro v input h
    cases hv : lookupVerb v.verbs (splitHead input).1 with
    | some cv =>
      rw [Verb.parse_eq_verb hv]
      simp only [Verb.parseFuel]
      rw [hv]
      have h1 : sizeOf cv < sizeOf v := sizeOf_child_lt hv
      exact ih cv (splitHead input).2 (by omega)
    | none =>
      cases hc : lookupCommand v.commands (splitHead input).1 with
      | some cmd =>
        rw [Verb.parse_eq_command hv hc]
        simp only [Verb.parseFuel]
        rw [hv, hc]
      | none =>
        rw [Verb.parse_eq_incorrect hv hc]
        simp only [Verb.parseFuel]
        rw [hv, hc]

/-! ### Concrete trees used by witnesses and counterexamples -/

def exManual : Manual := ⟨[], []⟩

/-- A registered top-level verb whose name contains a space (the
constructors place no restriction on names). -/
def spacedVerb : Verb := Verb.mk ['a', ' ', 'b'] [] [] exManual

def spacedParser : Parser := ⟨[spacedVerb]⟩

/-- The parameter `('i', "name")` from the repository's tests. -/
def tableParam : Parameter := ⟨'i', ['n', 'a', 'm', 'e']⟩

/-- The command `table` from the repository's tests. -/
def tableCommand : Command := ⟨['t', 'a', 'b', 'l', 'e'], [tableParam]⟩

/-- The verb `list` from the repository's tests. -/
def listVerb : Verb := Verb.mk ['l', 'i', 's', 't'] [] [tableCommand] exManual

def mainParser : Parser := ⟨[listVerb]⟩

/-- A child verb and a child command sharing the name `dup`. -/
def dupChildVerb : Verb := Verb.mk ['d', 'u', 'p'] [] [] exManual

def dupCommand : Command := ⟨['d', 'u', 'p'], []⟩

def rootVerb : Verb := Verb.mk ['r', 'o', 'o', 't'] [dupChildVerb] [dupCommand] exManual

/-- A parameter whose long name is the empty string. -/
def emptyLongParam : Parameter := ⟨'x', []⟩

def emptyLongCommand : Command := ⟨['c'], [emptyLongParam]⟩

/-- A parameter whose short name `é` occupies two UTF-8 bytes. -/
def accentParam : Parameter := ⟨'é', ['a', 'c', 'c']⟩

def accentCommand : Command := ⟨['c'], [accentParam]⟩

/-- The input `list<TAB>x` containing a tab and no space. -/
def tabInput : Str := ['l', 'i', 's', 't', '\t', 'x']

/-! ### Claims -/

/-- C1, counterexample: the claim quantifies over every registered
top-level verb name, but for the registered name `"a b"` (which contains
a space) `Parser::parse("a b" + " " + "x")` splits at the first space,
fails to look up `"a"`, and returns `Unknown("a")`, while
`Verb::parse("x")` on the verb named `"a b"` returns `Incorrect`; the
two Actions differ, so delegation is not lossless for that name. -/
theorem C1_counterexample :
    lookupVerb spacedParser.verbs ['a', ' ', 'b'] = some spacedVerb ∧
    Parser.parse spacedParser (['a', ' ', 'b'] ++ ' ' :: ['x']) ≠
      Verb.parse spacedVerb ['x'] := by
  refine ⟨rfl, ?_⟩
  have h1 : Parser.parse spacedParser (['a', ' ', 'b'] ++ ' ' :: ['x']) =
      Action.Unknown ['a'] := rfl
  have h2 : Verb.parse spacedVerb ['x'] = Action.Incorrect ['x'] spacedVerb :=
    Verb.parse_eq_incorrect rfl rfl
  rw [h1, h2]
  intro h
  exact Action.noConfusion h

/-- C1, amended: for every registered top-level verb `v` whose name
contains no space character and every string `rest`,
`Parser::parse(name ++ " " ++ rest)` returns exactly the Action produced
by that verb's `parse(rest)`. -/
theorem C1_delegation (p : Parser) (v : Verb) (rest : Str)
    (hname : ' ' ∉ v.name)
    (hreg : lookupVerb p.verbs v.name = some v) :
    Parser.parse p (v.name ++ ' ' :: rest) = Verb.parse v rest := by
  simp only [Parser.parse, splitHead_append rest hname]
  rw [hreg]

/-- C1, witness: the delegation theorem applied to the parser of the
repository's tests, with the verb `list` and rest `"table"`. -/
theorem C1_witness :
    ' ' ∉ listVerb.name ∧
    Parser.parse mainParser (listVerb.name ++ ' ' :: ['t', 'a', 'b', 'l', 'e']) =
      Verb.parse listVerb ['t', 'a', 'b', 'l', 'e'] :=
  ⟨by decide, C1_delegation mainParser listVerb ['t', 'a', 'b', 'l', 'e'] (by decide) rfl⟩

/-- C2, counterexample: the claim strips only the leading dash, but the
code uses `trim_matches('-')` which also strips trailing dashes.  For
the token `"-i-"` the claim predicts `BadParameter("i-", cmd)` (the
stripped text `"i-"` has length 2), but the code trims to `"i"`, length
1, resolves the short flag `i` and returns `Run`. -/
theorem C2_counterexample :
    Command.parse tableCommand ['-', 'i', '-'] =
      Action.Run [⟨tableParam, []⟩] ∧
    Command.parse tableCommand ['-', 'i', '-'] ≠
      Action.BadParameter ['i', '-'] tableCommand := by
  refine ⟨rfl, ?_⟩
  intro h
  rw [show Command.parse tableCommand ['-', 'i', '-'] =
      Action.Run [⟨tableParam, []⟩] from rfl] at h
  exact Action.noConfusion h

/-- C2, amended: when the tokenizer meets a token that starts with a
single dash (not two) and whose text after stripping all leading and
trailing dashes is longer than one character, `Command::parse`
immediately returns `BadParameter` carrying that fully stripped text and
the Command, aborting the rest of the tokenization and discarding the
ParameterValues accumulated so far. -/
theorem C2_bad_parameter (c : Command) (tok : Str) (rest : List Str)
    (acc : List ParameterValue)
    (h1 : strStartsWith tok ['-'] = true)
    (h2 : strStartsWith tok ['-', '-'] = false)
    (h3 : 1 < (trimMatchesDash tok).length) :
    Command.parseTokens c (tok :: rest) acc =
      Action.BadParameter (trimMatchesDash tok) c := by
  have h4 : 1 < utf8Len (trimMatchesDash tok) :=
    lt_of_lt_of_le h3 (length_le_utf8Len _)
  simp [Command.parseTokens, h1, h2, h4]

/-- C2, witness: the token `"-ix"` aborts the loop with
`BadParameter("ix")`, discarding a previously accumulated value. -/
theorem C2_witness :
    strStartsWith ['-', 'i', 'x'] ['-'] = true ∧
    strStartsWith ['-', 'i', 'x'] ['-', '-'] = false ∧
    1 < (trimMatchesDash ['-', 'i', 'x']).length ∧
    Command.parseTokens tableCommand [['-', 'i', 'x']] [⟨tableParam, [['a']]⟩] =
      Action.BadParameter (trimMatchesDash ['-', 'i', 'x']) tableCommand :=
  ⟨rfl, rfl, by decide,
   C2_bad_parameter tableCommand ['-', 'i', 'x'] [] [⟨tableParam, [['a']]⟩]
     rfl rfl (by decide)⟩

/-- C3, counterexample: the split is `split_once(" ")`, not a split on
whitespace runs.  On `"list<TAB>x"` the claim predicts head `"list"`
(registered, so the parser would delegate to the verb `list`), but the
code finds no space, keeps the whole line as head and returns
`Unknown("list<TAB>x")`, which differs from what the verb would
return. -/
theorem C3_counterexample :
    Parser.parse mainParser tabInput = Action.Unknown tabInput ∧
    Action.Unknown tabInput ≠ Verb.parse listVerb ['x'] := by
  refine ⟨rfl, ?_⟩
  have h2 : Verb.parse listVerb ['x'] = Action.Incorrect ['x'] listVerb :=
    Verb.parse_eq_incorrect rfl rfl
  rw [h2]
  intro h
  exact Action.noConfusion h

/-- C3, amended: `Parser::parse` and `Verb::parse` split their input at
the first space character only: when the input is
`head ++ " " ++ rest` with no space in `head`, the pair is
`(head, rest)` (later spaces stay inside `rest`, so runs are not
collapsed); when the input contains no space — even if it contains tabs
or other whitespace — the head is the whole line and the rest is empty;
both functions then dispatch on that pair. -/
theorem C3_split_single_space (p : Parser) (w : Verb) (head rest line : Str)
    (hh : ' ' ∉ head) (hl : ' ' ∉ line) :
    splitHead (head ++ ' ' :: rest) = (head, rest) ∧
    splitHead line = (line, []) ∧
    Parser.parse p (head ++ ' ' :: rest) =
      (match lookupVerb p.verbs head with
       | some v => Verb.parse v rest
       | none => Action.Unknown head) ∧
    Verb.parse w (head ++ ' ' :: rest) =
      (match lookupVerb w.verbs head with
       | some cv => Verb.parse cv rest
       | none =>
         match lookupCommand w.commands head with
         | some cmd => Command.parse cmd rest
         | none => Action.Incorrect (head ++ ' ' :: rest) w) := by
  have hs : splitHead (head ++ ' ' :: rest) = (head, rest) :=
    splitHead_append rest hh
  refine ⟨hs, splitHead_no_space hl, ?_, ?_⟩
  · simp only [Parser.parse, hs]
  · cases hv : lookupVerb w.verbs head with
    | some cv =>
      have hv2 : lookupVerb w.verbs (splitHead (head ++ ' ' :: rest)).1 = some cv := by
        rw [hs]; exact hv
      rw [Verb.parse_eq_verb hv2, hs]
    | none =>
      have hv2 : lookupVerb w.verbs (splitHead (head ++ ' ' :: rest)).1 = none := by
        rw [hs]; exact hv
      cases hc : lookupCommand w.commands head with
      | some cmd =>
        have hc2 : lookupCommand w.commands (splitHead (head ++ ' ' :: rest)).1 = some cmd := by
          rw [hs]; exact hc
        rw [Verb.parse_eq_command hv2 hc2, hs]
      | none =>
        have hc2 : lookupCommand w.commands (splitHead (head ++ ' ' :: rest)).1 = none := by
          rw [hs]; exact hc
        rw [Verb.parse_eq_incorrect hv2 hc2]

/-- C3, witness: the split theorem applied at head `"list"`, a rest that
begins with a further space, and the space-free line `"a<TAB>b"`. -/
theorem C3_witness :
    ' ' ∉ (['l', 'i', 's', 't'] : Str) ∧ ' ' ∉ (['a', '\t', 'b'] : Str) ∧
    (splitHead (['l', 'i', 's', 't'] ++ ' ' :: [' ', 'x']) = (['l', 'i', 's', 't'], [' ', 'x']) ∧
     splitHead ['a', '\t', 'b'] = (['a', '\t', 'b'], []) ∧
     Parser.parse mainParser (['l', 'i', 's', 't'] ++ ' ' :: [' ', 'x']) =
       (match lookupVerb mainParser.verbs ['l', 'i', 's', 't'] with
        | some v => Verb.parse v [' ', 'x']
        | none => Action.Unknown ['l', 'i', 's', 't']) ∧
     Verb.parse listVerb (['l', 'i', 's', 't'] ++ ' ' :: [' ', 'x']) =
       (match lookupVerb listVerb.verbs ['l', 'i', 's', 't'] with
        | some cv => Verb.parse cv [' ', 'x']
        | none =>
          match lookupCommand listVerb.commands ['l', 'i', 's', 't'] with
          | some cmd => Command.parse cmd [' ', 'x']
          | none => Action.Incorrect (['l', 'i', 's', 't'] ++ ' ' :: [' ', 'x']) listVerb)) :=
  ⟨by decide, by decide,
   C3_split_single_space mainParser listVerb ['l', 'i', 's', 't'] [' ', 'x']
     ['a', '\t', 'b'] (by decide) (by decide)⟩

/-- C4: the child-verb map is consulted before the child-command map, so
a same-named child verb shadows the command: whenever the first segment
names a child verb, `Verb::parse` recurses into it — whatever the
command map holds — and when neither map contains the segment the result
is `Incorrect` carrying the whole remaining input and this Verb. -/
theorem C4_verb_shadows_command (v : Verb) (input : Str) :
    (∀ (child : Verb) (cmd : Command),
      lookupVerb v.verbs (splitHead input).1 = some child →
      lookupCommand v.commands (splitHead input).1 = some cmd →
      Verb.parse v input = Verb.parse child (splitHead input).2) ∧
    (lookupVerb v.verbs (splitHead input).1 = none →
     lookupCommand v.commands (splitHead input).1 = none →
     Verb.parse v input = Action.Incorrect input v) := by
  refine ⟨?_, ?_⟩
  · intro child cmd hv hc
    exact Verb.parse_eq_verb hv
  · intro hv hc
    exact Verb.parse_eq_incorrect hv hc

/-- C4, witness: under `root`, the name `dup` names both a child verb
and a child command; dispatch reaches the child verb, and an unknown
segment yields `Incorrect`. -/
theorem C4_witness :
    lookupVerb rootVerb.verbs (splitHead ['d', 'u', 'p', ' ', 'x']).1 = some dupChildVerb ∧
    lookupCommand rootVerb.commands (splitHead ['d', 'u', 'p', ' ', 'x']).1 = some dupCommand ∧
    Verb.parse rootVerb ['d', 'u', 'p', ' ', 'x'] =
      Verb.parse dupChildVerb (splitHead ['d', 'u', 'p', ' ', 'x']).2 ∧
    Verb.parse rootVerb ['z'] = Action.Incorrect ['z'] rootVerb :=
  ⟨rfl, rfl,
   (C4_verb_shadows_command rootVerb ['d', 'u', 'p', ' ', 'x']).1 dupChildVerb dupCommand rfl rfl,
   (C4_verb_shadows_command rootVerb ['z']).2 rfl rfl⟩

/-- C5: a token with no leading dash is appended to the value list of
the most recently opened ParameterValue (the last element of the
accumulated list) when one exists, and has no effect at all when no
ParameterValue has been opened yet in the call. -/
theorem C5_bare_token (c : Command) (tok : Str) (rest : List Str)
    (h : strStartsWith tok ['-'] = false) :
    Command.parseTokens c (tok :: rest) [] = Command.parseTokens c rest [] ∧
    ∀ (acc : List ParameterValue) (pv : ParameterValue),
      Command.parseTokens c (tok :: rest) (acc ++ [pv]) =
        Command.parseTokens c rest
          (acc ++ [⟨pv.parameter_type, pv.values ++ [tok]⟩]) := by
  have h2 := strStartsWith_dashdash_false h
  refine ⟨?_, ?_⟩
  · simp [Command.parseTokens, h, h2, pushToLast]
  · intro acc pv
    simp [Command.parseTokens, h, h2, pushToLast_append]

/-- C5, witness: the bare token `"v"` is dropped on an empty accumulator
and appended to the open ParameterValue otherwise. -/
theorem C5_witness :
    strStartsWith ['v'] ['-'] = false ∧
    Command.parseTokens tableCommand [['v']] [] =
      Command.parseTokens tableCommand [] [] ∧
    Command.parseTokens tableCommand [['v']] ([] ++ [⟨tableParam, []⟩]) =
      Command.parseTokens tableCommand [] ([] ++ [⟨tableParam, [['v']]⟩]) :=
  ⟨rfl, (C5_bare_token tableCommand ['v'] [] rfl).1,
   (C5_bare_token tableCommand ['v'] [] rfl).2 [] ⟨tableParam, []⟩⟩

/-- C6: for every possible first token `x` (a string without a space,
which is exactly what the single-space split can produce as head) that
is not a registered top-level verb name, `Parser::parse(x)` and
`Parser::parse(x + " " + anything)` both return `Unknown(x)`. -/
theorem C6_unknown (p : Parser) (x anything : Str)
    (hx : ' ' ∉ x) (hreg : lookupVerb p.verbs x = none) :
    Parser.parse p x = Action.Unknown x ∧
    Parser.parse p (x ++ ' ' :: anything) = Action.Unknown x := by
  refine ⟨?_, ?_⟩
  · simp only [Parser.parse, splitHead_no_space hx]
    rw [hreg]
  · simp only [Parser.parse, splitHead_append anything hx]
    rw [hreg]

/-- C6, witness: the unregistered token `"foo"` yields `Unknown("foo")`
alone and followed by `" y"`. -/
theorem C6_witness :
    ' ' ∉ (['f', 'o', 'o'] : Str) ∧
    lookupVerb mainParser.verbs ['f', 'o', 'o'] = none ∧
    Parser.parse mainParser ['f', 'o', 'o'] = Action.Unknown ['f', 'o', 'o'] ∧
    Parser.parse mainParser (['f', 'o', 'o'] ++ ' ' :: ['y']) =
      Action.Unknown ['f', 'o', 'o'] :=
  ⟨by decide, rfl,
   (C6_unknown mainParser ['f', 'o', 'o'] ['y'] (by decide) rfl).1,
   (C6_unknown mainParser ['f', 'o', 'o'] ['y'] (by decide) rfl).2⟩

/-- C7, counterexample: the claim quantifies over every recognized
flag, but the single-dash length test is a byte-length test: for the
registered short flag `é` (two UTF-8 bytes) the token `"-é"` trims to
`"é"`, whose byte length 2 exceeds 1, so `Command::parse("-é a -é b")`
aborts with `BadParameter("é")` — no ParameterValue entries are
produced at all. -/
theorem C7_counterexample :
    accentCommand.byShortName 'é' = some 0 ∧
    Command.parse accentCommand ['-', 'é', ' ', 'a', ' ', '-', 'é', ' ', 'b'] =
      Action.BadParameter ['é'] accentCommand ∧
    Action.BadParameter ['é'] accentCommand ≠
      Action.Run [⟨accentParam, [['a']]⟩, ⟨accentParam, [['b']]⟩] := by
  refine ⟨rfl, rfl, ?_⟩
  intro h
  exact Action.noConfusion h

/-- C7, amended: two occurrences of the same recognized short flag
whose short name occupies a single UTF-8 byte push, within one call,
two separate ParameterValue entries bound to the same Parameter, in
input order, each collecting its own following value token — never a
merged or overwritten entry. -/
theorem C7_repeated_flag (c : Command) (ch : Char) (i : Nat) (p : Parameter)
    (a b : Str)
    (hch : ch ≠ '-')
    (hsz : ch.utf8Size = 1)
    (hs : c.byShortName ch = some i)
    (hp : c.parameters.get? i = some p)
    (ha : strStartsWith a ['-'] = false)
    (hb : strStartsWith b ['-'] = false) :
    Command.parseTokens c [['-', ch], a, ['-', ch], b] [] =
      Action.Run [⟨p, [a]⟩, ⟨p, [b]⟩] := by
  have hcb : (ch == '-') = false := by
    simp [hch]
  have hcd : (decide (ch = '-')) = false := decide_eq_false hch
  have htrim : trimMatchesDash ['-', ch] = [ch] := by
    simp [trimMatchesDash, List.dropWhile, hcd]
  have hlen : utf8Len [ch] = 1 := by
    simp [utf8Len, hsz]
  have hdd : strStartsWith ['-', ch] ['-', '-'] = false := by
    simp [strStartsWith, hcb]
  have hd : strStartsWith ['-', ch] ['-'] = true := by
    simp [strStartsWith]
  have hp2 : c.parameters[i]? = some p := by
    rw [← List.get?_eq_getElem?]
    exact hp
  have ha2 := strStartsWith_dashdash_false ha
  have hb2 := strStartsWith_dashdash_false hb
  simp [Command.parseTokens, hdd, hd, htrim, hlen, hs, hp2, ha, ha2, hb, hb2,
    ParameterValue.new, pushToLast]

/-- C7, witness: `"-i a -i b"` on the test command (with the one-byte
short name `i`) yields `[{i, ["a"]}, {i, ["b"]}]`. -/
theorem C7_witness :
    ('i' : Char) ≠ '-' ∧
    ('i' : Char).utf8Size = 1 ∧
    tableCommand.byShortName 'i' = some 0 ∧
    tableCommand.parameters.get? 0 = some tableParam ∧
    Command.parseTokens tableCommand [['-', 'i'], ['a'], ['-', 'i'], ['b']] [] =
      Action.Run [⟨tableParam, [['a']]⟩, ⟨tableParam, [['b']]⟩] :=
  ⟨by decide, rfl, rfl, rfl,
   C7_repeated_flag tableCommand 'i' 0 tableParam ['a'] ['b']
     (by decide) rfl rfl rfl rfl rfl⟩

/-- C8: for every Command, parsing the empty argument text returns
`Run` with an empty ParameterValue list. -/
theorem C8_empty_run : ∀ (c : Command), Command.parse c [] = Action.Run [] :=
  fun _ => rfl

/-- C9: every parse call terminates.  The fuelled variants of the verb
walk, which give up when the fuel runs out, already succeed — and agree
with the total functions `Parser::parse` / `Verb::parse` — whenever the
fuel is at least the size of the (finite, cycle-free) tree, so the
recursion depth is bounded by the tree and no call diverges; the token
loop of `Command::parse` is structural in its token list. -/
theorem C9_parse_terminates (fuel : Nat) (p : Parser) (v : Verb) (input : Str)
    (hp : sizeOf p ≤ fuel) (hv : sizeOf v ≤ fuel) :
    Parser.parseFuel fuel p input = some (Parser.parse p input) ∧
    Verb.parseFuel fuel v input = some (Verb.parse v input) := by
  refine ⟨?_, Verb.parseFuel_adequate fuel v input hv⟩
  cases hl : lookupVerb p.verbs (splitHead input).1 with
  | some w =>
    simp only [Parser.parseFuel, Parser.parse]
    rw [hl]
    apply Verb.parseFuel_adequate
    have hm : w ∈ p.verbs := lookupVerb_mem hl
    have h2 : sizeOf w < sizeOf p.verbs := List.sizeOf_lt_of_mem hm
    cases p with
    | mk vs =>
      simp only [Parser.mk.sizeOf_spec] at hp
      simp only at h2
      omega
  | none =>
    simp only [Parser.parseFuel, Parser.parse]
    rw [hl]

/-- C9, witness: fuel 1000000 is enough for the test parser and verb. -/
theorem C9_witness :
    sizeOf mainParser ≤ 1000000 ∧ sizeOf listVerb ≤ 1000000 ∧
    (Parser.parseFuel 1000000 mainParser tabInput =
       some (Parser.parse mainParser tabInput) ∧
     Verb.parseFuel 1000000 listVerb tabInput =
       some (Verb.parse listVerb tabInput)) :=
  ⟨by decide, by decide,
   C9_parse_terminates 1000000 mainParser listVerb tabInput (by decide) (by decide)⟩

/-- C10, counterexample: the claim extends the silent drop to every
token that becomes empty after dash stripping, but the double-dash token
`"--"` trims to the empty string and is looked up in the long-name
index; a Command declaring a parameter with the empty long name matches
it and a new ParameterValue is opened, so the token is not dropped. -/
theorem C10_counterexample :
    Command.parse emptyLongCommand ['-', '-'] =
      Action.Run [⟨emptyLongParam, []⟩] ∧
    Action.Run [⟨emptyLongParam, []⟩] ≠ Action.Run ([] : List ParameterValue) := by
  refine ⟨rfl, ?_⟩
  intro h
  simp at h

/-- C10, amended: the token `"-"` is always silently dropped by the
token loop (no `BadParameter`, no new ParameterValue, the previously
opened ParameterValue stays the target), and a non-empty all-dash token
is likewise dropped provided the empty string is not a key of the
command's long-name index (i.e. no parameter has an empty long
name). -/
theorem C10_dash_dropped (c : Command) (rest : List Str)
    (acc : List ParameterValue) (tok : Str) :
    (Command.parseTokens c (['-'] :: rest) acc = Command.parseTokens c rest acc) ∧
    (c.byLongName [] = none → tok ≠ [] → (∀ ch ∈ tok, ch = '-') →
      Command.parseTokens c (tok :: rest) acc = Command.parseTokens c rest acc) := by
  refine ⟨?_, ?_⟩
  · simp [Command.parseTokens, strStartsWith, trimMatchesDash, utf8Len]
  · intro hne htok1 htok2
    cases tok with
    | nil => exact absurd rfl htok1
    | cons c0 cs =>
      have hc0 : c0 = '-' := htok2 c0 (List.mem_cons_self _ _)
      subst hc0
      cases cs with
      | nil => simp [Command.parseTokens, strStartsWith, trimMatchesDash, utf8Len]
      | cons c1 cs2 =>
        have hc1 : c1 = '-' := htok2 c1 (List.mem_cons_of_mem _ (List.mem_cons_self _ _))
        subst hc1
        have htrim : trimMatchesDash ('-' :: '-' :: cs2) = [] :=
          trimMatchesDash_all_dash htok2
        simp [Command.parseTokens, strStartsWith, htrim, hne]

/-- C10, witness: the token `"-"` leaves the accumulator untouched even
on the command declaring an empty long name, and `"---"` does so on the
test command (whose parameter's long name is `"name"`, not empty). -/
theorem C10_witness :
    (Command.parseTokens emptyLongCommand [['-']] [⟨emptyLongParam, []⟩] =
       Command.parseTokens emptyLongCommand [] [⟨emptyLongParam, []⟩]) ∧
    tableCommand.byLongName [] = none ∧
    (['-', '-', '-'] : Str) ≠ [] ∧
    (Command.parseTokens tableCommand [['-', '-', '-']] [⟨tableParam, []⟩] =
       Command.parseTokens tableCommand [] [⟨tableParam, []⟩]) :=
  ⟨(C10_dash_dropped emptyLongCommand [] [⟨emptyLongParam, []⟩] ['-']).1,
   rfl, by decide,
   (C10_dash_dropped tableCommand [] [⟨tableParam, []⟩] ['-', '-', '-']).2
     rfl (by decide) (by decide)⟩

end Cockle
